import Mathlib

/-!
# Verification of the `tw_stock` incremental fetch-and-upsert engine

Shallow embedding of the ingestion core of the repository:
* `src/margin_purchase_short_sale/update.py` — chunk planner, watermark
  resolver, schema reconciler, upsert writer, orchestrator;
* `src/margin_purchase_short_sale/base.py` — record normalizer
  (`finmind_to_snake`);
* `src/stock_information/transform_to_clean_table.py` — batched upsert loop
  with degradation to single-row writes.

Calendar dates are modelled as natural numbers (day ordinals): the Python
code parses ISO strings into `datetime.date` values and then only adds or
subtracts `timedelta(days=k)` and compares, which is exactly `Nat`
arithmetic on day numbers.
-/

namespace TwStock

/-! ## Chunk planner: `_daterange_chunks` (update.py lines 55–63)

```python
def _daterange_chunks(start, end, step_days):
    s = parse(start); e = parse(end)
    cur = s
    delta = timedelta(days=step_days)
    while cur <= e:
        chunk_end = min(cur + delta - timedelta(days=1), e)
        yield cur.isoformat(), chunk_end.isoformat()
        cur = chunk_end + timedelta(days=1)
```

The loop body is faithful for `step_days ≥ 1`; for `step_days = 0` the
Python loop never terminates (`cur` never advances), so the embedding
returns only the terminating fragment: the guard `1 ≤ step` is part of the
domain condition, matching the claim's restriction to positive spans. -/
def daterangeChunksGo (e step cur : Nat) : List (Nat × Nat) :=
  if h : cur ≤ e ∧ 1 ≤ step then
    (cur, min (cur + step - 1) e) :: daterangeChunksGo e step (min (cur + step - 1) e + 1)
  else []
termination_by e + 1 - cur
decreasing_by
  omega

/-- `_daterange_chunks(start, end, step_days)`: the full list of emitted
`(chunk_start, chunk_end)` pairs. -/
def daterange_chunks (start e step : Nat) : List (Nat × Nat) :=
  daterangeChunksGo e step start

lemma daterangeChunksGo_cons {e step cur : Nat} (hc : cur ≤ e) (hs : 1 ≤ step) :
    daterangeChunksGo e step cur =
      (cur, min (cur + step - 1) e) ::
        daterangeChunksGo e step (min (cur + step - 1) e + 1) := by
  rw [daterangeChunksGo]
  exact dif_pos ⟨hc, hs⟩

lemma daterangeChunksGo_nil {e step cur : Nat} (h : e < cur) :
    daterangeChunksGo e step cur = [] := by
  rw [daterangeChunksGo]
  exact dif_neg (by omega)

lemma daterangeChunksGo_mem (e step : Nat) (hs : 1 ≤ step) :
    ∀ cur, ∀ c ∈ daterangeChunksGo e step cur,
      cur ≤ c.1 ∧ c.1 ≤ c.2 ∧ c.2 ≤ e ∧ c.2 + 1 ≤ c.1 + step := by
  intro cur
  by_cases hc : cur ≤ e
  · rw [daterangeChunksGo_cons hc hs]
    intro c hmem
    rcases List.mem_cons.mp hmem with h | h
    · subst h
      refine ⟨le_refl _, le_min (by omega) hc, min_le_right _ _, ?_⟩
      have := min_le_left (cur + step - 1) e
      omega
    · have ih := daterangeChunksGo_mem e step hs (min (cur + step - 1) e + 1) c h
      have h1 : cur ≤ min (cur + step - 1) e := le_min (by omega) hc
      exact ⟨by omega, ih.2.1, ih.2.2.1, ih.2.2.2⟩
  · rw [daterangeChunksGo_nil (by omega)]
    intro c hmem
    exact absurd hmem (List.not_mem_nil c)
termination_by cur => e + 1 - cur
decreasing_by
  omega

lemma daterangeChunksGo_getLast (e step : Nat) (hs : 1 ≤ step) :
    ∀ cur, cur ≤ e →
      (daterangeChunksGo e step cur).getLast?.map Prod.snd = some e := by
  intro cur hc
  rw [daterangeChunksGo_cons hc hs]
  by_cases h2 : min (cur + step - 1) e + 1 ≤ e
  · have ih := daterangeChunksGo_getLast e step hs (min (cur + step - 1) e + 1) h2
    rcases hnil : daterangeChunksGo e step (min (cur + step - 1) e + 1) with _ | ⟨a, l⟩
    · rw [hnil] at ih; simp at ih
    · rw [hnil] at ih
      rw [List.getLast?_cons_cons]
      exact ih
  · have hend : min (cur + step - 1) e = e := by omega
    rw [daterangeChunksGo_nil (by omega)]
    simp [hend]
termination_by cur => e + 1 - cur
decreasing_by
  omega

lemma daterangeChunksGo_chain (e step : Nat) (hs : 1 ≤ step) :
    ∀ cur, List.Chain' (fun c c' : Nat × Nat => c'.1 = c.2 + 1)
      (daterangeChunksGo e step cur) := by
  intro cur
  by_cases hc : cur ≤ e
  · rw [daterangeChunksGo_cons hc hs]
    refine List.chain'_cons'.mpr ⟨?_, ?_⟩
    · intro y hy
      by_cases h2 : min (cur + step - 1) e + 1 ≤ e
      · rw [daterangeChunksGo_cons h2 hs] at hy
        simp only [List.head?_cons, Option.mem_def, Option.some.injEq] at hy
        rw [← hy]
      · rw [daterangeChunksGo_nil (by omega)] at hy
        simp at hy
    · exact daterangeChunksGo_chain e step hs (min (cur + step - 1) e + 1)
  · rw [daterangeChunksGo_nil (by omega)]
    exact List.chain'_nil
termination_by cur => e + 1 - cur
decreasing_by
  omega

lemma daterangeChunksGo_pairwise (e step : Nat) (hs : 1 ≤ step) :
    ∀ cur, List.Pairwise (fun c c' : Nat × Nat => c.2 < c'.1)
      (daterangeChunksGo e step cur) := by
  intro cur
  by_cases hc : cur ≤ e
  · rw [daterangeChunksGo_cons hc hs]
    refine List.pairwise_cons.mpr ⟨?_, ?_⟩
    · intro c hmem
      have := (daterangeChunksGo_mem e step hs _ c hmem).1
      simpa using by omega
    · exact daterangeChunksGo_pairwise e step hs (min (cur + step - 1) e + 1)
  · rw [daterangeChunksGo_nil (by omega)]
    exact List.Pairwise.nil
termination_by cur => e + 1 - cur
decreasing_by
  omega

lemma daterangeChunksGo_cover (e step : Nat) (hs : 1 ≤ step) :
    ∀ cur d, (∃ c ∈ daterangeChunksGo e step cur, c.1 ≤ d ∧ d ≤ c.2) ↔
      (cur ≤ d ∧ d ≤ e) := by
  intro cur d
  by_cases hc : cur ≤ e
  · rw [daterangeChunksGo_cons hc hs]
    have ih := daterangeChunksGo_cover e step hs (min (cur + step - 1) e + 1) d
    constructor
    · rintro ⟨c, hmem, hcd⟩
      rcases List.mem_cons.mp hmem with h | h
      · subst h
        simp only at hcd
        have := min_le_right (cur + step - 1) e
        omega
      · have := ih.mp ⟨c, h, hcd⟩
        have h1 : cur ≤ min (cur + step - 1) e := le_min (by omega) hc
        omega
    · rintro ⟨hd1, hd2⟩
      by_cases hin : d ≤ min (cur + step - 1) e
      · exact ⟨(cur, min (cur + step - 1) e), List.mem_cons_self _ _, hd1, hin⟩
      · obtain ⟨c, hmem, hcd⟩ := ih.mpr ⟨by omega, hd2⟩
        exact ⟨c, List.mem_cons_of_mem _ hmem, hcd⟩
  · rw [daterangeChunksGo_nil (by omega)]
    simp
    omega
termination_by cur => e + 1 - cur
decreasing_by
  omega

/-- **C1.** For every start date, end date and positive max span with
`start ≤ end`, `_daterange_chunks` produces an ascending sequence of
`(chunk_start, chunk_end)` pairs that are contiguous (each chunk starts the
day after the previous chunk ends), non-overlapping, cover exactly the
inclusive range `[start, end]`, and each chunk spans at most `max_span`
days; for `start > end` it produces the empty sequence. -/
theorem daterange_chunks_spec (s e step : Nat) (hs : 1 ≤ step) :
    (e < s → daterange_chunks s e step = []) ∧
    (s ≤ e →
      (daterange_chunks s e step).head?.map Prod.fst = some s ∧
      (daterange_chunks s e step).getLast?.map Prod.snd = some e) ∧
    List.Chain' (fun c c' : Nat × Nat => c'.1 = c.2 + 1) (daterange_chunks s e step) ∧
    List.Pairwise (fun c c' : Nat × Nat => c.2 < c'.1) (daterange_chunks s e step) ∧
    (∀ c ∈ daterange_chunks s e step, c.1 ≤ c.2 ∧ c.2 + 1 - c.1 ≤ step) ∧
    (∀ d, (∃ c ∈ daterange_chunks s e step, c.1 ≤ d ∧ d ≤ c.2) ↔ (s ≤ d ∧ d ≤ e)) := by
  refine ⟨fun h => daterangeChunksGo_nil h, fun h => ?_, ?_, ?_, ?_, ?_⟩
  · constructor
    · rw [daterange_chunks, daterangeChunksGo_cons h hs]
      rfl
    · exact daterangeChunksGo_getLast e step hs s h
  · exact daterangeChunksGo_chain e step hs s
  · exact daterangeChunksGo_pairwise e step hs s
  · intro c hmem
    have := daterangeChunksGo_mem e step hs s c hmem
    exact ⟨this.2.1, by omega⟩
  · exact fun d => daterangeChunksGo_cover e step hs s d

/-- Witness for C1: the specification instantiated at `start = 3`,
`end = 10`, `max_span = 4`. -/
theorem daterange_chunks_spec_witness :
    (10 < 3 → daterange_chunks 3 10 4 = []) ∧
    (3 ≤ 10 →
      (daterange_chunks 3 10 4).head?.map Prod.fst = some 3 ∧
      (daterange_chunks 3 10 4).getLast?.map Prod.snd = some 10) ∧
    List.Chain' (fun c c' : Nat × Nat => c'.1 = c.2 + 1) (daterange_chunks 3 10 4) ∧
    List.Pairwise (fun c c' : Nat × Nat => c.2 < c'.1) (daterange_chunks 3 10 4) ∧
    (∀ c ∈ daterange_chunks 3 10 4, c.1 ≤ c.2 ∧ c.2 + 1 - c.1 ≤ 4) ∧
    (∀ d, (∃ c ∈ daterange_chunks 3 10 4, c.1 ≤ d ∧ d ≤ c.2) ↔ (3 ≤ d ∧ d ≤ 10)) :=
  daterange_chunks_spec 3 10 4 (by decide)

/-! ## Orchestrator: the per-chunk loop of `run_full_history_for_symbol`
(update.py lines 172–191)

```python
for s, e in _daterange_chunks(start, end, CHUNK_DAYS):
    try:
        df = fetch_margin_short(stock_id, s, e)
    except Exception as ex:
        print(...); time.sleep(...); continue
    if df.empty:
        print(...); time.sleep(...); continue
    written = _upsert_df_to_mysql(df)
    total_written += written
    time.sleep(...)
return total_written
```

`fetch` is the external `fetch_margin_short` (an oracle that either returns
a record list or raises), `write` the row count reported by
`_upsert_df_to_mysql` on a non-empty frame. Record contents are irrelevant
to the loop, so the record type is a parameter. -/
def runChunks {α : Type} (fetch : Nat × Nat → Except String (List α))
    (write : List α → Nat) : List (Nat × Nat) → Nat
  | [] => 0
  | c :: rest =>
    match fetch c with
    | .error _ => runChunks fetch write rest
    | .ok df => if df.isEmpty then runChunks fetch write rest
                else write df + runChunks fetch write rest

/-- The number of rows one chunk contributes to `total_written`: zero when
its fetch raises or returns an empty frame, the written count otherwise. -/
def chunkContribution {α : Type} (fetch : Nat × Nat → Except String (List α))
    (write : List α → Nat) (c : Nat × Nat) : Nat :=
  match fetch c with
  | .error _ => 0
  | .ok df => if df.isEmpty then 0 else write df

lemma runChunks_eq_sum {α : Type} (fetch : Nat × Nat → Except String (List α))
    (write : List α → Nat) (chunks : List (Nat × Nat)) :
    runChunks fetch write chunks = (chunks.map (chunkContribution fetch write)).sum := by
  induction chunks with
  | nil => rfl
  | cons c rest ih =>
    rw [runChunks, List.map_cons, List.sum_cons, chunkContribution]
    cases hf : fetch c with
    | error e => simpa using ih
    | ok df =>
      by_cases hdf : df.isEmpty
      · simp [hdf, ih]
      · simp [hdf, ih]

/-- **C4.** For every entity and every sequence of chunks in which the fetch
of one chunk raises an error, the orchestrator catches that error and still
attempts fetch and write for every later chunk: the total over
`pre ++ [c] ++ post` equals the total over `pre` plus the total over `post`
(the failed chunk contributes nothing), and in general the returned total is
the sum of the per-chunk contributions of all chunks, failed chunks
contributing zero. -/
theorem run_chunks_fetch_failure_isolated {α : Type}
    (fetch : Nat × Nat → Except String (List α)) (write : List α → Nat)
    (pre post : List (Nat × Nat)) (c : Nat × Nat) (err : String)
    (hf : fetch c = .error err) :
    runChunks fetch write (pre ++ c :: post) =
      runChunks fetch write pre + runChunks fetch write post ∧
    (∀ chunks : List (Nat × Nat),
      runChunks fetch write chunks =
        (chunks.map (chunkContribution fetch write)).sum) ∧
    chunkContribution fetch write c = 0 := by
  have hc0 : chunkContribution fetch write c = 0 := by
    rw [chunkContribution, hf]
  refine ⟨?_, runChunks_eq_sum fetch write, hc0⟩
  rw [runChunks_eq_sum, runChunks_eq_sum, runChunks_eq_sum,
    List.map_append, List.sum_append, List.map_cons, List.sum_cons, hc0,
    Nat.zero_add]

/-- Witness for C4: three chunks, the middle fetch raises; the total is the
sum over the first and last chunks. -/
theorem run_chunks_fetch_failure_isolated_witness :
    runChunks (fun c => if c = (2, 3) then .error "timeout" else .ok [7])
        (fun df => df.length) ([(0, 1)] ++ (2, 3) :: [(4, 5)]) =
      runChunks (fun c => if c = (2, 3) then .error "timeout" else .ok [7])
        (fun df => df.length) [(0, 1)] +
      runChunks (fun c => if c = (2, 3) then .error "timeout" else .ok [7])
        (fun df => df.length) [(4, 5)] ∧
    (∀ chunks : List (Nat × Nat),
      runChunks (fun c => if c = (2, 3) then .error "timeout" else .ok [7])
          (fun df => df.length) chunks =
        (chunks.map (chunkContribution
          (fun c => if c = (2, 3) then .error "timeout" else .ok [7])
          (fun df => df.length))).sum) ∧
    chunkContribution (fun c => if c = (2, 3) then .error "timeout" else .ok [7])
      (fun df => df.length) (2, 3) = 0 :=
  run_chunks_fetch_failure_isolated _ _ [(0, 1)] [(4, 5)] (2, 3) "timeout" rfl

/-! ## Watermark and per-symbol run: `run_full_history_for_symbol`
(update.py lines 160–171) and `_get_db_max_date` (lines 65–76)

```python
end = end_date or date.today().isoformat()
max_in_db = _get_db_max_date(stock_id)
start = (parse(max_in_db) + timedelta(days=1)).isoformat() if max_in_db else START_FALLBACK
if start > end:
    return 0
...
```

`_get_db_max_date` returns `MAX(date)` for the entity or `None`; it is an
oracle parameter `maxInDb`. The ISO-string comparison `start > end` is the
day-number comparison (lexicographic order on ISO dates is date order). The
result pairs the returned total with the list of chunks on which a fetch is
attempted; the skip branch attempts none. -/
def resolveStart (maxInDb : Option Nat) (epoch : Nat) : Nat :=
  match maxInDb with
  | some m => m + 1
  | none => epoch

def run_full_history_for_symbol {α : Type} (maxInDb : Option Nat)
    (epoch endD chunkDays : Nat) (fetch : Nat × Nat → Except String (List α))
    (write : List α → Nat) : Nat × List (Nat × Nat) :=
  let start := resolveStart maxInDb epoch
  if endD < start then (0, [])
  else (runChunks fetch write (daterange_chunks start endD chunkDays),
        daterange_chunks start endD chunkDays)

/-- **C9.** The per-entity run starts its fetch range at the day after the
store's maximum persisted date when one exists, at the configured epoch
otherwise; and when that start exceeds the end date the entity is skipped
entirely: it returns a written count of 0 and attempts no fetch (hence
writes nothing). -/
theorem run_full_history_for_symbol_watermark_spec {α : Type}
    (maxInDb : Option Nat) (epoch endD chunkDays : Nat)
    (fetch : Nat × Nat → Except String (List α)) (write : List α → Nat) :
    (∀ m, maxInDb = some m → resolveStart maxInDb epoch = m + 1) ∧
    (maxInDb = none → resolveStart maxInDb epoch = epoch) ∧
    (endD < resolveStart maxInDb epoch →
      run_full_history_for_symbol maxInDb epoch endD chunkDays fetch write = (0, [])) := by
  refine ⟨?_, ?_, ?_⟩
  · intro m hm; rw [hm]; rfl
  · intro hm; rw [hm]; rfl
  · intro hlt
    rw [run_full_history_for_symbol]
    simp only [if_pos hlt]

/-- Witness for C9: watermark day 100, epoch 0, end day 50 (already
current): the run returns 0 and attempts nothing. -/
theorem run_full_history_for_symbol_watermark_spec_witness :
    (∀ m, (some 100 : Option Nat) = some m → resolveStart (some 100) 0 = m + 1) ∧
    ((some 100 : Option Nat) = none → resolveStart (some 100) 0 = 0) ∧
    (50 < resolveStart (some 100) 0 →
      run_full_history_for_symbol (some 100) 0 50 120
        (fun _ => .ok ([] : List Nat)) (fun df => df.length) = (0, [])) :=
  run_full_history_for_symbol_watermark_spec (some 100) 0 50 120
    (fun _ => .ok ([] : List Nat)) (fun df => df.length)

/-! ## Multi-entity run: `run_full_history` (update.py lines 193–203)

```python
for i, sid in enumerate(syms, 1):
    print(...)
    total = run_full_history_for_symbol(sid, end_date=end)
    print(...)
```

There is no `try`/`except` around the loop body: an exception escaping
`run_full_history_for_symbol` (watermark query failure, schema error, write
error — only per-chunk fetch errors are caught inside) propagates and
aborts the loop. `runEntity` is the per-entity run as an oracle; the result
records the entities actually attempted, in order, and the error that
aborted the run if any. -/
def run_full_history (runEntity : String → Except String Nat) :
    List String → List String × Option String
  | [] => ([], none)
  | sid :: rest =>
    match runEntity sid with
    | .error e => ([sid], some e)
    | .ok _ =>
      let r := run_full_history runEntity rest
      (sid :: r.1, r.2)

/-- A per-entity oracle where entity "A" fails (e.g. its watermark query
raises) and every other entity succeeds. -/
def failOnA : String → Except String Nat :=
  fun sid => if sid = "A" then .error "db down" else .ok 1

/-- **C5 counterexample.** Running entities `["A", "B"]` where processing
entity "A" fails: the run aborts with the error and entity "B" is never
processed — refuting the claim that no single entity's failure aborts the
whole run. -/
theorem run_full_history_abort_counterexample :
    (run_full_history failOnA ["A", "B"]).1 = ["A"] ∧
    "B" ∉ (run_full_history failOnA ["A", "B"]).1 ∧
    (run_full_history failOnA ["A", "B"]).2 = some "db down" := by
  refine ⟨rfl, ?_, rfl⟩
  decide

/-- **C5 (amended).** An error escaping one entity's processing (watermark
query failure, schema error, or write error) aborts the whole multi-entity
run: the entities before the failing one are processed, the failing entity
is attempted, and the entities after it are never processed. Only per-chunk
fetch errors are isolated (inside the per-entity run). -/
theorem run_full_history_abort_spec (runEntity : String → Except String Nat)
    (pre post : List String) (sid : String) (err : String)
    (hpre : ∀ s ∈ pre, ∃ n, runEntity s = .ok n)
    (hf : runEntity sid = .error err) :
    run_full_history runEntity (pre ++ sid :: post) = (pre ++ [sid], some err) := by
  induction pre with
  | nil =>
    simp only [List.nil_append]
    rw [run_full_history, hf]
  | cons s pre ih =>
    obtain ⟨n, hn⟩ := hpre s (List.mem_cons_self s pre)
    have ih' := ih (fun s' hs' => hpre s' (List.mem_cons_of_mem s hs'))
    simp only [List.cons_append]
    rw [run_full_history, hn, ih']

/-- Witness for C5 (amended): entities `["Z", "A", "B"]` with "Z"
succeeding and "A" failing: the run stops after attempting `["Z", "A"]`. -/
theorem run_full_history_abort_spec_witness :
    run_full_history failOnA (["Z"] ++ "A" :: ["B"]) = (["Z"] ++ ["A"], some "db down") :=
  run_full_history_abort_spec failOnA ["Z"] ["B"] "A" "db down"
    (by intro s hs; simp only [List.mem_singleton] at hs; subst hs; exact ⟨1, rfl⟩)
    rfl

/-! ## Upsert writer: `_upsert_df_to_mysql` (update.py lines 102–158)

The target table has composite primary key `(stock_id, date)` (DDL line
44). The insert statement lists the two key columns and the fourteen data
columns, and on duplicate key overwrites every data column with
`VALUES(...)` and refreshes `updated_at`. A MySQL value here is an integer
(`BIGINT` columns), a string (`note VARCHAR`), or NULL (`Option`). -/
inductive SqlVal : Type
  | i : Int → SqlVal
  | s : String → SqlVal
deriving DecidableEq, Repr

/-- The fourteen non-key columns of
`taiwan_stock_margin_purchase_short_sale`, in the order of the INSERT
column list (update.py lines 122–128). -/
structure MarginRow : Type where
  margin_purchase_buy : Option SqlVal
  margin_purchase_cash_repayment : Option SqlVal
  margin_purchase_limit : Option SqlVal
  margin_purchase_sell : Option SqlVal
  margin_purchase_today_balance : Option SqlVal
  margin_purchase_yesterday_balance : Option SqlVal
  note : Option SqlVal
  offset_loan_and_short : Option SqlVal
  short_sale_buy : Option SqlVal
  short_sale_cash_repayment : Option SqlVal
  short_sale_limit : Option SqlVal
  short_sale_sell : Option SqlVal
  short_sale_today_balance : Option SqlVal
  short_sale_yesterday_balance : Option SqlVal
deriving DecidableEq, Repr

/-- One normalized record handed to `executemany`: the composite key plus
the non-key column values. -/
structure NormRecord : Type where
  stock_id : String
  date : String
  vals : MarginRow
deriving DecidableEq, Repr

def NormRecord.key (r : NormRecord) : String × String := (r.stock_id, r.date)

/-- The table state: rows keyed by the composite primary key. -/
abbrev Store : Type := List ((String × String) × MarginRow)

/-- The effect of executing the upsert statement for one record:
`INSERT ... ON DUPLICATE KEY UPDATE` overwrites every non-key column of the
conflicting row with the new values, or appends a new row when no row has
the key. -/
def upsertRow (st : Store) (r : NormRecord) : Store :=
  if st.any (fun row => row.1 = r.key) then
    st.map (fun row => if row.1 = r.key then (row.1, r.vals) else row)
  else st ++ [(r.key, r.vals)]

/-- `cur.executemany(sql, data)` (update.py line 156): the upsert applied to
each record in order. -/
def upsertBatch (st : Store) (b : List NormRecord) : Store :=
  b.foldl upsertRow st

/-- Effects `_upsert_df_to_mysql` can have on the database. -/
inductive DbEffect : Type
  | openConn : DbEffect
  | showCols : DbEffect
  | execInsert : Nat → DbEffect
deriving DecidableEq, Repr

/-- `_upsert_df_to_mysql(df)` (update.py lines 102–158): on an empty frame
it returns 0 before touching the database (line 103–104); otherwise it runs
`_ensure_missing_columns` (one connection and `SHOW COLUMNS`; at this
record-level model the column set is the canonical one, so no `ALTER`
clause arises), then opens a connection and executes the upsert batch,
returning `len(data)`. -/
def upsert_df_to_mysql (st : Store) (df : List NormRecord) : Nat × Store × List DbEffect :=
  if df.isEmpty then (0, st, [])
  else (df.length, upsertBatch st df,
    [.openConn, .showCols, .openConn, .execInsert df.length])

/-- **C10.** For an empty input record set, the upsert writer returns a
written count of 0 and performs no store interaction whatsoever: no
connection, no schema reconciliation, no insert; the store state is
unchanged. -/
theorem upsert_df_to_mysql_empty_frame (st : Store) :
    upsert_df_to_mysql st [] = (0, st, []) := rfl

/-- Witness for C10: a concrete one-row store is returned untouched with
count 0 and an empty effect list. -/
theorem upsert_df_to_mysql_empty_frame_witness :
    upsert_df_to_mysql
      [(("2330", "2024-01-02"),
        ⟨some (.i 1), none, none, none, none, none, some (.s "x"), none,
         none, none, none, none, none, none⟩)] [] =
    (0,
      [(("2330", "2024-01-02"),
        ⟨some (.i 1), none, none, none, none, none, some (.s "x"), none,
         none, none, none, none, none, none⟩)], []) :=
  upsert_df_to_mysql_empty_frame _

lemma countP_key_map_update (st : Store) (k j : String × String) (v : MarginRow) :
    (st.map (fun row => if row.1 = k then (row.1, v) else row)).countP
      (fun row => row.1 = j) = st.countP (fun row => row.1 = j) := by
  rw [List.countP_map]
  refine List.countP_congr ?_
  intro a _
  by_cases hx : a.1 = k
  · simp [hx]
  · simp [hx]

lemma upsertRow_count (st : Store) (r : NormRecord) :
    (upsertRow st r).countP (fun row => row.1 = r.key) =
      max 1 (st.countP (fun row => row.1 = r.key)) := by
  unfold upsertRow
  by_cases hany : st.any (fun row => row.1 = r.key) = true
  · rw [if_pos hany, countP_key_map_update]
    obtain ⟨x, hx, hpx⟩ := List.any_eq_true.mp hany
    have hpos : 0 < st.countP (fun row => row.1 = r.key) :=
      List.countP_pos_iff.mpr ⟨x, hx, hpx⟩
    omega
  · rw [if_neg hany, List.countP_append]
    have hzero : st.countP (fun row => row.1 = r.key) = 0 := by
      refine List.countP_eq_zero.mpr ?_
      intro a ha hpa
      exact hany (List.any_eq_true.mpr ⟨a, ha, hpa⟩)
    simp [hzero, List.countP_cons]

lemma upsertRow_vals_at_key (st : Store) (r : NormRecord) :
    ∀ row ∈ upsertRow st r, row.1 = r.key → row.2 = r.vals := by
  intro row hrow hkey
  unfold upsertRow at hrow
  by_cases hany : st.any (fun row => row.1 = r.key) = true
  · rw [if_pos hany] at hrow
    obtain ⟨x, _, hfx⟩ := List.mem_map.mp hrow
    by_cases hx : x.1 = r.key
    · rw [if_pos hx] at hfx
      rw [← hfx]
    · rw [if_neg hx] at hfx
      rw [← hfx] at hkey
      exact absurd hkey hx
  · rw [if_neg hany] at hrow
    rcases List.mem_append.mp hrow with h | h
    · exact absurd (List.any_eq_true.mpr ⟨row, h, by simpa using hkey⟩) hany
    · simp only [List.mem_singleton] at h
      rw [h]

lemma upsertRow_vals_preserved (st : Store) (r : NormRecord) (j : String × String)
    (hj : r.key ≠ j) (v : MarginRow)
    (hst : ∀ row ∈ st, row.1 = j → row.2 = v) :
    ∀ row ∈ upsertRow st r, row.1 = j → row.2 = v := by
  intro row hrow hkey
  unfold upsertRow at hrow
  by_cases hany : st.any (fun row => row.1 = r.key) = true
  · rw [if_pos hany] at hrow
    obtain ⟨x, hxmem, hfx⟩ := List.mem_map.mp hrow
    by_cases hx : x.1 = r.key
    · rw [if_pos hx] at hfx
      have hxj : x.1 = j := by rw [← hfx] at hkey; exact hkey
      exact absurd (hx.symm.trans hxj) hj
    · rw [if_neg hx] at hfx
      exact hst row (hfx ▸ hxmem) hkey
  · rw [if_neg hany] at hrow
    rcases List.mem_append.mp hrow with h | h
    · exact hst row h hkey
    · simp only [List.mem_singleton] at h
      rw [h] at hkey
      exact absurd hkey hj

lemma upsertRow_any_self (st : Store) (r : NormRecord) :
    (upsertRow st r).any (fun row => row.1 = r.key) = true := by
  unfold upsertRow
  by_cases hany : st.any (fun row => row.1 = r.key) = true
  · rw [if_pos hany]
    obtain ⟨x, hx, hpx⟩ := List.any_eq_true.mp hany
    refine List.any_eq_true.mpr ⟨(x.1, r.vals), ?_, ?_⟩
    · exact List.mem_map.mpr ⟨x, hx, by rw [if_pos (by simpa using hpx)]⟩
    · simpa using hpx
  · rw [if_neg hany]
    exact List.any_eq_true.mpr ⟨(r.key, r.vals), List.mem_append_right _ (List.mem_singleton_self _), by simp⟩

lemma upsertRow_any_mono (st : Store) (r : NormRecord) (j : String × String)
    (h : st.any (fun row => row.1 = j) = true) :
    (upsertRow st r).any (fun row => row.1 = j) = true := by
  unfold upsertRow
  obtain ⟨x, hx, hpx⟩ := List.any_eq_true.mp h
  by_cases hany : st.any (fun row => row.1 = r.key) = true
  · rw [if_pos hany]
    by_cases hxk : x.1 = r.key
    · exact List.any_eq_true.mpr ⟨(x.1, r.vals),
        List.mem_map.mpr ⟨x, hx, by rw [if_pos hxk]⟩, by simpa using hpx⟩
    · exact List.any_eq_true.mpr ⟨x,
        List.mem_map.mpr ⟨x, hx, by rw [if_neg hxk]⟩, hpx⟩
  · rw [if_neg hany]
    exact List.any_eq_true.mpr ⟨x, List.mem_append_left _ hx, hpx⟩

lemma upsertBatch_any_mono (b : List NormRecord) :
    ∀ st : Store, ∀ j : String × String, st.any (fun row => row.1 = j) = true →
      (upsertBatch st b).any (fun row => row.1 = j) = true := by
  induction b with
  | nil => intro st j h; exact h
  | cons r b ih =>
    intro st j h
    exact ih (upsertRow st r) j (upsertRow_any_mono st r j h)

lemma upsertBatch_vals_preserved (b : List NormRecord) :
    ∀ st : Store, ∀ j : String × String, (∀ r ∈ b, r.key ≠ j) →
      ∀ v : MarginRow, (∀ row ∈ st, row.1 = j → row.2 = v) →
        ∀ row ∈ upsertBatch st b, row.1 = j → row.2 = v := by
  induction b with
  | nil => intro st j _ v hst; exact hst
  | cons r b ih =>
    intro st j hb v hst
    exact ih (upsertRow st r) j (fun r' hr' => hb r' (List.mem_cons_of_mem r hr')) v
      (upsertRow_vals_preserved st r j (hb r (List.mem_cons_self r b)) v hst)

/-- Rows of two stores agree in keys and in all values outside key `k`. -/
def EqExcept (k : String × String) (st₁ st₂ : Store) : Prop :=
  List.Forall₂ (fun a b => a.1 = b.1 ∧ (a.1 ≠ k → a.2 = b.2)) st₁ st₂

lemma eqExcept_refl (k : String × String) (st : Store) : EqExcept k st st :=
  List.forall₂_same.mpr (fun _ _ => ⟨rfl, fun _ => rfl⟩)

lemma eqExcept_any_eq {k : String × String} {st₁ st₂ : Store}
    (h : EqExcept k st₁ st₂) (j : String × String) :
    st₁.any (fun row => row.1 = j) = st₂.any (fun row => row.1 = j) := by
  induction h with
  | nil => rfl
  | cons ha _ ih => simp [List.any_cons, ha.1, ih]

lemma eqExcept_map_left (t : Store) (k : String × String) (v : MarginRow) :
    EqExcept k (t.map (fun row => if row.1 = k then (row.1, v) else row)) t := by
  induction t with
  | nil => exact List.Forall₂.nil
  | cons x t ih =>
    refine List.Forall₂.cons ?_ ih
    dsimp only
    by_cases hx : x.1 = k
    · rw [if_pos hx]
      exact ⟨rfl, fun h => absurd hx h⟩
    · rw [if_neg hx]
      exact ⟨rfl, fun _ => rfl⟩

lemma eqExcept_map_update_eq {k : String × String} {t₁ t₂ : Store}
    (h : EqExcept k t₁ t₂) (v : MarginRow) :
    t₁.map (fun row => if row.1 = k then (row.1, v) else row)
      = t₂.map (fun row => if row.1 = k then (row.1, v) else row) := by
  induction h with
  | nil => rfl
  | cons ha ht ih =>
    rename_i a b t₁ t₂
    simp only [List.map_cons]
    refine congrArg₂ List.cons ?_ ih
    dsimp only
    by_cases hak : a.1 = k
    · rw [if_pos hak, if_pos (ha.1 ▸ hak), ha.1]
    · rw [if_neg hak, if_neg (fun hbk => hak (ha.1.trans hbk))]
      exact Prod.ext ha.1 (ha.2 hak)

lemma eqExcept_eq_of_no_key {k : String × String} {st₁ st₂ : Store}
    (h : EqExcept k st₁ st₂) (hnone : ∀ row ∈ st₂, row.1 ≠ k) : st₁ = st₂ := by
  induction h with
  | nil => rfl
  | cons ha ht ih =>
    rename_i a b t₁ t₂
    have hb := hnone b (List.mem_cons_self _ _)
    have hab : a = b := Prod.ext ha.1 (ha.2 (fun hak => hb (ha.1.symm.trans hak)))
    rw [hab, ih (fun row hrow => hnone row (List.mem_cons_of_mem _ hrow))]

lemma upsertRow_congr_of_eq {k : String × String} {st₁ st₂ : Store}
    (h : EqExcept k st₁ st₂) (r : NormRecord) (hr : r.key = k) :
    upsertRow st₁ r = upsertRow st₂ r := by
  subst hr
  unfold upsertRow
  rw [eqExcept_any_eq h r.key]
  by_cases hany : st₂.any (fun row => row.1 = r.key) = true
  · rw [if_pos hany, if_pos hany]
    exact eqExcept_map_update_eq h r.vals
  · rw [if_neg hany, if_neg hany]
    have hnone : ∀ row ∈ st₂, row.1 ≠ r.key := by
      intro row hrow hkey
      exact hany (List.any_eq_true.mpr ⟨row, hrow, by simpa using hkey⟩)
    rw [eqExcept_eq_of_no_key h hnone]

lemma eqExcept_map_update_ne {k : String × String} {t₁ t₂ : Store}
    (h : EqExcept k t₁ t₂) (kk : String × String) (v : MarginRow) :
    EqExcept k (t₁.map (fun row => if row.1 = kk then (row.1, v) else row))
      (t₂.map (fun row => if row.1 = kk then (row.1, v) else row)) := by
  induction h with
  | nil => exact List.Forall₂.nil
  | cons ha ht ih =>
    rename_i a b t₁ t₂
    refine List.Forall₂.cons ?_ ih
    dsimp only
    by_cases hak : a.1 = kk
    · rw [if_pos hak, if_pos (ha.1 ▸ hak)]
      exact ⟨ha.1, fun _ => rfl⟩
    · rw [if_neg hak, if_neg (fun hbk => hak (ha.1.trans hbk))]
      exact ha

lemma upsertRow_congr_of_ne {k : String × String} {st₁ st₂ : Store}
    (h : EqExcept k st₁ st₂) (r : NormRecord) :
    EqExcept k (upsertRow st₁ r) (upsertRow st₂ r) := by
  unfold upsertRow
  rw [eqExcept_any_eq h r.key]
  by_cases hany : st₂.any (fun row => row.1 = r.key) = true
  · rw [if_pos hany, if_pos hany]
    exact eqExcept_map_update_ne h r.key r.vals
  · rw [if_neg hany, if_neg hany]
    exact List.rel_append h (List.Forall₂.cons ⟨rfl, fun _ => rfl⟩ List.Forall₂.nil)

lemma upsertBatch_congr {k : String × String} (b : List NormRecord)
    (hex : ∃ r ∈ b, r.key = k) :
    ∀ {st₁ st₂ : Store}, EqExcept k st₁ st₂ →
      upsertBatch st₁ b = upsertBatch st₂ b := by
  induction b with
  | nil => exact absurd hex (by simp)
  | cons r b ih =>
    intro st₁ st₂ h
    by_cases hr : r.key = k
    · show upsertBatch (upsertRow st₁ r) b = upsertBatch (upsertRow st₂ r) b
      rw [upsertRow_congr_of_eq h r hr]
    · have hex' : ∃ r' ∈ b, r'.key = k := by
        obtain ⟨r', hmem, hk⟩ := hex
        rcases List.mem_cons.mp hmem with heq | hmem'
        · exact absurd (heq ▸ hk) hr
        · exact ⟨r', hmem', hk⟩
      exact ih hex' (upsertRow_congr_of_ne h r)

lemma upsertRow_fix (st : Store) (r : NormRecord)
    (hany : st.any (fun row => row.1 = r.key) = true)
    (hvals : ∀ row ∈ st, row.1 = r.key → row.2 = r.vals) :
    upsertRow st r = st := by
  unfold upsertRow
  rw [if_pos hany]
  have : ∀ row ∈ st, (if row.1 = r.key then (row.1, r.vals) else row) = row := by
    intro row hrow
    by_cases hk : row.1 = r.key
    · rw [if_pos hk, ← hvals row hrow hk]
    · rw [if_neg hk]
  rw [List.map_congr_left this]
  exact List.map_id _

lemma upsertRow_eqExcept_self (st : Store) (r : NormRecord)
    (hany : st.any (fun row => row.1 = r.key) = true) :
    EqExcept r.key (upsertRow st r) st := by
  unfold upsertRow
  rw [if_pos hany]
  exact eqExcept_map_left st r.key r.vals

lemma upsertBatch_reinsert (st : Store) (r : NormRecord) (b : List NormRecord) :
    upsertBatch (upsertRow (upsertBatch (upsertRow st r) b) r) b
      = upsertBatch (upsertBatch (upsertRow st r) b) b := by
  have hpres : (upsertBatch (upsertRow st r) b).any (fun row => row.1 = r.key) = true :=
    upsertBatch_any_mono b (upsertRow st r) r.key (upsertRow_any_self st r)
  by_cases hex : ∃ r' ∈ b, r'.key = r.key
  · exact upsertBatch_congr b hex (upsertRow_eqExcept_self _ r hpres)
  · push_neg at hex
    have hvals : ∀ row ∈ upsertBatch (upsertRow st r) b, row.1 = r.key → row.2 = r.vals :=
      upsertBatch_vals_preserved b (upsertRow st r) r.key hex r.vals
        (upsertRow_vals_at_key st r)
    rw [upsertRow_fix _ r hpres hvals]

lemma upsertBatch_rerun (b : List NormRecord) :
    ∀ st : Store, upsertBatch (upsertBatch st b) b = upsertBatch st b := by
  induction b with
  | nil => intro st; rfl
  | cons r b ih =>
    intro st
    calc upsertBatch (upsertBatch st (r :: b)) (r :: b)
        = upsertBatch (upsertRow (upsertBatch (upsertRow st r) b) r) b := rfl
      _ = upsertBatch (upsertBatch (upsertRow st r) b) b := upsertBatch_reinsert st r b
      _ = upsertBatch (upsertRow st r) b := ih (upsertRow st r)

/-- **C2.** Upserting is idempotent on the composite key `(stock_id, date)`:
writing two normalized records with the same key in sequence leaves exactly
one row for that key (given the primary-key invariant that the store held
at most one row for it), whose non-key column values are those of the
second write; and re-running any batch leaves the final store state
unchanged. -/
theorem upsert_idempotent_spec (st : Store) (r1 r2 : NormRecord)
    (hkey : r1.key = r2.key)
    (hpk : st.countP (fun row => row.1 = r2.key) ≤ 1) :
    (upsertBatch st [r1, r2]).countP (fun row => row.1 = r2.key) = 1 ∧
    (∀ row ∈ upsertBatch st [r1, r2], row.1 = r2.key → row.2 = r2.vals) ∧
    (∀ b : List NormRecord, ∀ st' : Store,
      upsertBatch (upsertBatch st' b) b = upsertBatch st' b) := by
  have hbatch : upsertBatch st [r1, r2] = upsertRow (upsertRow st r1) r2 := rfl
  refine ⟨?_, ?_, fun b st' => upsertBatch_rerun b st'⟩
  · rw [hbatch, upsertRow_count]
    have h1 := upsertRow_count st r1
    rw [hkey] at h1
    rw [h1]
    omega
  · rw [hbatch]
    exact upsertRow_vals_at_key (upsertRow st r1) r2

/-- Witness for C2: a concrete store holding one row for the key, written
twice with different balances; the second write's values win and the row
count at the key is one. -/
theorem upsert_idempotent_spec_witness :
    (upsertBatch [(("2330", "2024-01-02"),
        ⟨some (.i 1), none, none, none, none, none, none, none,
         none, none, none, none, none, none⟩)]
      [⟨"2330", "2024-01-02",
        ⟨some (.i 2), none, none, none, none, none, none, none,
         none, none, none, none, none, none⟩⟩,
       ⟨"2330", "2024-01-02",
        ⟨some (.i 3), none, none, none, none, none, none, none,
         none, none, none, none, none, none⟩⟩]).countP
      (fun row => row.1 = NormRecord.key ⟨"2330", "2024-01-02",
        ⟨some (.i 3), none, none, none, none, none, none, none,
         none, none, none, none, none, none⟩⟩) = 1 ∧
    (∀ row ∈ upsertBatch [(("2330", "2024-01-02"),
        ⟨some (.i 1), none, none, none, none, none, none, none,
         none, none, none, none, none, none⟩)]
      [⟨"2330", "2024-01-02",
        ⟨some (.i 2), none, none, none, none, none, none, none,
         none, none, none, none, none, none⟩⟩,
       ⟨"2330", "2024-01-02",
        ⟨some (.i 3), none, none, none, none, none, none, none,
         none, none, none, none, none, none⟩⟩],
      row.1 = NormRecord.key ⟨"2330", "2024-01-02",
        ⟨some (.i 3), none, none, none, none, none, none, none,
         none, none, none, none, none, none⟩⟩ →
      row.2 = MarginRow.mk (some (.i 3)) none none none none none none none
        none none none none none none) ∧
    (∀ b : List NormRecord, ∀ st' : Store,
      upsertBatch (upsertBatch st' b) b = upsertBatch st' b) :=
  upsert_idempotent_spec _ _ _ rfl (by decide)

/-! ## Schema reconciler: `_ensure_missing_columns` (update.py lines 78–100)

```python
def _ensure_missing_columns(df):
    if df.empty: return
    existing = {r["Field"] for r in SHOW COLUMNS}
    alter_parts = []
    for col, dtype in df.dtypes.items():
        if col in ("stock_id", "date"): continue
        if col not in existing:
            coltype = "BIGINT" if integer else "DOUBLE" if float else "VARCHAR(255)"
            alter_parts.append(f"ADD COLUMN `{col}` {coltype} NULL")
    if alter_parts:
        cur.execute("ALTER TABLE ... " + ", ".join(alter_parts))
```

A pandas dtype is classified by `is_integer_dtype` / `is_float_dtype` /
otherwise. The frame is abstracted to its column/dtype list and row count
(`df.empty` is true when either axis has length zero). The result is the
single alteration statement issued, as its list of ADD COLUMN clauses, or
`none` when no statement is executed. -/
inductive PdDtype : Type
  | integer : PdDtype
  | floating : PdDtype
  | other : PdDtype
deriving DecidableEq, Repr

inductive ColType : Type
  | BIGINT : ColType
  | DOUBLE : ColType
  | VARCHAR255 : ColType
deriving DecidableEq, Repr

def inferColType : PdDtype → ColType
  | .integer => .BIGINT
  | .floating => .DOUBLE
  | .other => .VARCHAR255

structure DfShape : Type where
  cols : List (String × PdDtype)
  nrows : Nat
deriving DecidableEq, Repr

def DfShape.isEmpty (df : DfShape) : Bool :=
  df.nrows = 0 || df.cols.isEmpty

/-- The `alter_parts` accumulation loop. -/
def alterParts (dfCols : List (String × PdDtype)) (existing : List String) :
    List (String × ColType) :=
  dfCols.foldl (fun acc cd =>
    if cd.1 = "stock_id" ∨ cd.1 = "date" then acc
    else if cd.1 ∈ existing then acc
    else acc ++ [(cd.1, inferColType cd.2)]) []

def ensure_missing_columns (df : DfShape) (existing : List String) :
    Option (List (String × ColType)) :=
  if df.isEmpty then none
  else
    let parts := alterParts df.cols existing
    if parts.isEmpty then none else some parts

/-- The new-column clauses described declaratively: one ADD COLUMN clause
per frame column that is neither identity column and is absent from the
live column set, with the inferred type. -/
def newColumnClauses (df : DfShape) (existing : List String) :
    List (String × ColType) :=
  (df.cols.filter (fun cd =>
    ¬(cd.1 = "stock_id" ∨ cd.1 = "date") ∧ cd.1 ∉ existing)).map
    (fun cd => (cd.1, inferColType cd.2))

lemma alterParts_go (existing : List String) (dfCols : List (String × PdDtype)) :
    ∀ acc : List (String × ColType),
      dfCols.foldl (fun acc cd =>
        if cd.1 = "stock_id" ∨ cd.1 = "date" then acc
        else if cd.1 ∈ existing then acc
        else acc ++ [(cd.1, inferColType cd.2)]) acc =
      acc ++ (dfCols.filter (fun cd =>
        ¬(cd.1 = "stock_id" ∨ cd.1 = "date") ∧ cd.1 ∉ existing)).map
        (fun cd => (cd.1, inferColType cd.2)) := by
  induction dfCols with
  | nil => intro acc; simp
  | cons cd rest ih =>
    intro acc
    rw [List.foldl_cons, List.filter_cons]
    by_cases h1 : cd.1 = "stock_id" ∨ cd.1 = "date"
    · have hd : ¬(¬(cd.1 = "stock_id" ∨ cd.1 = "date") ∧ cd.1 ∉ existing) :=
        fun hc => hc.1 h1
      rw [if_pos h1, ih, if_neg (by simpa using hd)]
    · by_cases h2 : cd.1 ∈ existing
      · have hd : ¬(¬(cd.1 = "stock_id" ∨ cd.1 = "date") ∧ cd.1 ∉ existing) :=
          fun hc => hc.2 h2
        rw [if_neg h1, if_pos h2, ih, if_neg (by simpa using hd)]
      · have hd : (¬(cd.1 = "stock_id" ∨ cd.1 = "date") ∧ cd.1 ∉ existing) := ⟨h1, h2⟩
        rw [if_neg h1, if_neg h2, ih, if_pos (by simpa using hd)]
        simp

lemma alterParts_eq (df : DfShape) (existing : List String) :
    alterParts df.cols existing = newColumnClauses df existing := by
  rw [alterParts, newColumnClauses, alterParts_go existing df.cols []]
  rfl

/-- **C6.** The schema reconciler issues at most one alteration statement,
consisting only of ADD COLUMN clauses — exactly one per field present in
the record set but absent from the live column set, excluding the two
identity columns, typed `BIGINT` for integer dtypes, `DOUBLE` for float
dtypes, `VARCHAR(255)` otherwise — and issues no statement at all when the
frame is empty or no new fields are present; every clause targets a column
absent from the live set (so no existing column is dropped or retyped). -/
theorem ensure_missing_columns_spec (df : DfShape) (existing : List String) :
    (df.isEmpty = false →
      ensure_missing_columns df existing =
        (if newColumnClauses df existing = [] then none
         else some (newColumnClauses df existing))) ∧
    (df.isEmpty = true → ensure_missing_columns df existing = none) ∧
    (∀ stmt, ensure_missing_columns df existing = some stmt →
      stmt ≠ [] ∧
      ∀ cl ∈ stmt, cl.1 ∉ existing ∧ cl.1 ≠ "stock_id" ∧ cl.1 ≠ "date") ∧
    inferColType .integer = .BIGINT ∧
    inferColType .floating = .DOUBLE ∧
    inferColType .other = .VARCHAR255 := by
  have hchar : ∀ stmt, ensure_missing_columns df existing = some stmt →
      stmt = newColumnClauses df existing := by
    intro stmt hsome
    rw [ensure_missing_columns] at hsome
    by_cases he : df.isEmpty
    · rw [if_pos he] at hsome; exact absurd hsome (by simp)
    · rw [if_neg he] at hsome
      simp only [alterParts_eq] at hsome
      by_cases hp : (newColumnClauses df existing).isEmpty
      · rw [if_pos hp] at hsome; exact absurd hsome (by simp)
      · rw [if_neg hp] at hsome
        exact (Option.some_inj.mp hsome).symm
  refine ⟨?_, ?_, ?_, rfl, rfl, rfl⟩
  · intro he
    rw [ensure_missing_columns, he]
    simp only [Bool.false_eq_true, if_false, alterParts_eq]
    by_cases hp : newColumnClauses df existing = []
    · simp [hp]
    · simp [hp, List.isEmpty_iff]
  · intro he
    rw [ensure_missing_columns, he]
    rfl
  · intro stmt hsome
    have hstmt := hchar stmt hsome
    constructor
    · intro hnil
      rw [ensure_missing_columns] at hsome
      by_cases he : df.isEmpty
      · rw [if_pos he] at hsome; exact absurd hsome (by simp)
      · rw [if_neg he] at hsome
        simp only [alterParts_eq] at hsome
        rw [hstmt] at hnil
        rw [if_pos (List.isEmpty_iff.mpr hnil)] at hsome
        exact absurd hsome (by simp)
    · intro cl hcl
      rw [hstmt, newColumnClauses] at hcl
      obtain ⟨cd, hcdmem, hcdeq⟩ := List.mem_map.mp hcl
      have hp := List.of_mem_filter hcdmem
      simp only [decide_eq_true_eq] at hp
      rw [← hcdeq]
      exact ⟨hp.2, fun h => hp.1 (Or.inl h), fun h => hp.1 (Or.inr h)⟩

/-- Witness for C6: a frame with one row and one genuinely new integer
column alongside the identity columns and one already-live column. -/
theorem ensure_missing_columns_spec_witness :
    ((DfShape.mk [("stock_id", .other), ("date", .other),
        ("margin_purchase_buy", .integer), ("brand_new", .integer)] 1).isEmpty = false →
      ensure_missing_columns
          (DfShape.mk [("stock_id", .other), ("date", .other),
            ("margin_purchase_buy", .integer), ("brand_new", .integer)] 1)
          ["stock_id", "date", "margin_purchase_buy"] =
        (if newColumnClauses
            (DfShape.mk [("stock_id", .other), ("date", .other),
              ("margin_purchase_buy", .integer), ("brand_new", .integer)] 1)
            ["stock_id", "date", "margin_purchase_buy"] = [] then none
         else some (newColumnClauses
            (DfShape.mk [("stock_id", .other), ("date", .other),
              ("margin_purchase_buy", .integer), ("brand_new", .integer)] 1)
            ["stock_id", "date", "margin_purchase_buy"]))) ∧
    ((DfShape.mk [("stock_id", .other), ("date", .other),
        ("margin_purchase_buy", .integer), ("brand_new", .integer)] 1).isEmpty = true →
      ensure_missing_columns
          (DfShape.mk [("stock_id", .other), ("date", .other),
            ("margin_purchase_buy", .integer), ("brand_new", .integer)] 1)
          ["stock_id", "date", "margin_purchase_buy"] = none) ∧
    (∀ stmt, ensure_missing_columns
          (DfShape.mk [("stock_id", .other), ("date", .other),
            ("margin_purchase_buy", .integer), ("brand_new", .integer)] 1)
          ["stock_id", "date", "margin_purchase_buy"] = some stmt →
      stmt ≠ [] ∧
      ∀ cl ∈ stmt, cl.1 ∉ ["stock_id", "date", "margin_purchase_buy"] ∧
        cl.1 ≠ "stock_id" ∧ cl.1 ≠ "date") ∧
    inferColType .integer = .BIGINT ∧
    inferColType .floating = .DOUBLE ∧
    inferColType .other = .VARCHAR255 :=
  ensure_missing_columns_spec
    (DfShape.mk [("stock_id", .other), ("date", .other),
      ("margin_purchase_buy", .integer), ("brand_new", .integer)] 1)
    ["stock_id", "date", "margin_purchase_buy"]

/-! ## Batched upsert with degradation:
`stock_information/transform_to_clean_table.py`, `main` (lines 150–169)

```python
try:
    cur.executemany(UPSERT_SQL, batch)
except pymysql.err.OperationalError as e:
    if e.args and e.args[0] in (2006, 2013):
        conn.ping(reconnect=True)
        cur.executemany(UPSERT_SQL, batch)   # retried once; a second failure propagates
    else:
        raise
except pymysql.err.DataError as e:
    for rec in batch:
        cur.execute(UPSERT_SQL, rec)         # one record at a time
conn.commit()
inserted += len(batch)
```

The outcome of the first `executemany` is an oracle: success, an
`OperationalError` with a driver error code, or a `DataError` (the
payload/data-too-large category). `retry` is the outcome of the second
`executemany` after reconnect; `single` the outcome of each single-record
`execute`. -/
inductive BatchOutcome : Type
  | ok : BatchOutcome
  | opError : Int → BatchOutcome
  | dataError : BatchOutcome
deriving DecidableEq, Repr

/-- The single-record fallback loop: executes records in order, returning
the records written, or the first error (which propagates, uncaught). -/
def execSingles {ρ : Type} (single : ρ → Except String Unit) :
    List ρ → Except String (List ρ)
  | [] => .ok []
  | r :: rest =>
    match single r with
    | .ok _ => (execSingles single rest).map (fun w => r :: w)
    | .error e => .error e

/-- One iteration of the batch loop: the written count the iteration adds
to `inserted` (always `len(batch)` when it completes), or the propagated
error. -/
def processBatch {ρ : Type} (first : BatchOutcome) (retry : Except String Unit)
    (single : ρ → Except String Unit) (batch : List ρ) : Except String Nat :=
  match first with
  | .ok => .ok batch.length
  | .opError code =>
    if code = 2006 ∨ code = 2013 then
      match retry with
      | .ok _ => .ok batch.length
      | .error e => .error e
    else .error "OperationalError"
  | .dataError =>
    match execSingles single batch with
    | .ok _ => .ok batch.length
    | .error e => .error e

lemma execSingles_all_ok {ρ : Type} (single : ρ → Except String Unit)
    (batch : List ρ) (hall : ∀ r ∈ batch, single r = .ok ()) :
    execSingles single batch = .ok batch := by
  induction batch with
  | nil => rfl
  | cons r rest ih =>
    rw [execSingles, hall r (List.mem_cons_self r rest),
      ih (fun r' hr' => hall r' (List.mem_cons_of_mem r hr'))]
    rfl

/-- **C7.** For every batch of N records whose batched write fails with the
payload/data-too-large error category (not a transient connection error),
the writer degrades to issuing the batch's records one at a time — every
record is individually written — instead of failing the whole batch, and
when all N individual writes succeed the reported written count equals N. -/
theorem batch_data_error_degrades_to_single_rows {ρ : Type}
    (retry : Except String Unit) (single : ρ → Except String Unit)
    (batch : List ρ) (hall : ∀ r ∈ batch, single r = .ok ()) :
    processBatch .dataError retry single batch = .ok batch.length ∧
    execSingles single batch = .ok batch := by
  have hsingles := execSingles_all_ok single batch hall
  refine ⟨?_, hsingles⟩
  rw [processBatch, hsingles]

/-- Witness for C7: a three-record batch whose batched write hits the
data-error category; all three single writes succeed and the count is 3. -/
theorem batch_data_error_degrades_to_single_rows_witness :
    processBatch .dataError (.error "still down") (fun _ : Nat => .ok ())
        [10, 20, 30] = .ok ([10, 20, 30] : List Nat).length ∧
    execSingles (fun _ : Nat => .ok ()) [10, 20, 30] = .ok [10, 20, 30] :=
  batch_data_error_degrades_to_single_rows (.error "still down")
    (fun _ => .ok ()) [10, 20, 30] (fun _ _ => rfl)

/-! ## Record normalizer: `finmind_to_snake` (base.py lines 65–81)

```python
def finmind_to_snake(df):
    if df.empty: return df.copy()
    df = df.copy()
    df.rename(columns=FINMIND_TO_SNAKE, inplace=True)
    for col in SNAKE_EXPECTED:
        if col not in df.columns:
            df[col] = pd.NA
    if "date" in df.columns:
        df["date"] = pd.to_datetime(df["date"], errors="coerce").dt.date.astype("string")
    remain = [c for c in df.columns if c not in SNAKE_EXPECTED]
    out = df[SNAKE_EXPECTED + remain].sort_values("date", kind="stable")
    out["_fetched_at"] = datetime.now().strftime(...)
    out["_source"] = "FinMind"
    return out
```

A frame is its column-name list plus its rows (one value list per row,
positionally aligned with the columns). A cell value is a string, an
integer, or NA. `pd.to_datetime(..., errors="coerce")` is the external
pandas parser, abstracted as an oracle `parseDate : Value → Option String`:
`errors="coerce"` turns a failed parse (`none`) into `NaT`, which
`.dt.date.astype("string")` carries to NA. `sort_values("date",
kind="stable")` is an ascending stable sort with NA placed last. -/
inductive Value : Type
  | na : Value
  | str : String → Value
  | int : Int → Value
deriving DecidableEq, Repr

structure DataFrame : Type where
  cols : List String
  rows : List (List Value)
deriving DecidableEq, Repr

/-- The `FINMIND_TO_SNAKE` rename table (base.py lines 15–30). -/
def FINMIND_TO_SNAKE : List (String × String) :=
  [("MarginPurchaseBuy", "margin_purchase_buy"),
   ("MarginPurchaseCashRepayment", "margin_purchase_cash_repayment"),
   ("MarginPurchaseLimit", "margin_purchase_limit"),
   ("MarginPurchaseSell", "margin_purchase_sell"),
   ("MarginPurchaseTodayBalance", "margin_purchase_today_balance"),
   ("MarginPurchaseYesterdayBalance", "margin_purchase_yesterday_balance"),
   ("Note", "note"),
   ("OffsetLoanAndShort", "offset_loan_and_short"),
   ("ShortSaleBuy", "short_sale_buy"),
   ("ShortSaleCashRepayment", "short_sale_cash_repayment"),
   ("ShortSaleLimit", "short_sale_limit"),
   ("ShortSaleSell", "short_sale_sell"),
   ("ShortSaleTodayBalance", "short_sale_today_balance"),
   ("ShortSaleYesterdayBalance", "short_sale_yesterday_balance")]

/-- The canonical column list `SNAKE_EXPECTED` (base.py lines 32–49). -/
def SNAKE_EXPECTED : List String :=
  ["date", "stock_id",
   "margin_purchase_buy", "margin_purchase_cash_repayment",
   "margin_purchase_limit", "margin_purchase_sell",
   "margin_purchase_today_balance", "margin_purchase_yesterday_balance",
   "note", "offset_loan_and_short",
   "short_sale_buy", "short_sale_cash_repayment", "short_sale_limit",
   "short_sale_sell", "short_sale_today_balance",
   "short_sale_yesterday_balance"]

/-- `df.rename(columns=FINMIND_TO_SNAKE)` on one column name. -/
def renameCol (c : String) : String :=
  match FINMIND_TO_SNAKE.lookup c with
  | some s => s
  | none => c

/-- The canonical-column fill loop: each `SNAKE_EXPECTED` column absent
from the frame is appended with NA in every row. -/
def addMissing (cs : List String) (d : DataFrame) : DataFrame :=
  cs.foldl (fun d c =>
    if c ∈ d.cols then d
    else ⟨d.cols ++ [c], d.rows.map (fun r => r ++ [Value.na])⟩) d

/-- `errors="coerce"`: a failed parse becomes NA. -/
def coerceDate (parseDate : Value → Option String) (v : Value) : Value :=
  match parseDate v with
  | some s => .str s
  | none => .na

/-- Reassigning the `date` column through the coercing parser. -/
def coerceDateCol (parseDate : Value → Option String) (d : DataFrame) : DataFrame :=
  ⟨d.cols,
   d.rows.map (fun r => r.set (d.cols.indexOf "date")
     (coerceDate parseDate (r.getD (d.cols.indexOf "date") .na)))⟩

/-- `df[cs]`: column selection/reordering by name. -/
def selectCols (d : DataFrame) (cs : List String) : DataFrame :=
  ⟨cs, d.rows.map (fun r => cs.map (fun c => r.getD (d.cols.indexOf c) .na))⟩

/-- The sort key: the `date` column, which is column 0 after selection. -/
def dateVal (r : List Value) : Value := r.getD 0 .na

/-- Ascending comparison used by `sort_values("date", ...)`: NA sorts
last (`na_position="last"`), dates (ISO strings) by string order. -/
def dateLE : Value → Value → Bool
  | .na, .na => true
  | .na, _ => false
  | _, .na => true
  | .int x, .int y => x ≤ y
  | .int _, .str _ => true
  | .str _, .int _ => false
  | .str x, .str y => x ≤ y

def rowLE (r₁ r₂ : List Value) : Prop := dateLE (dateVal r₁) (dateVal r₂) = true

instance : DecidableRel rowLE := fun r₁ r₂ =>
  inferInstanceAs (Decidable (dateLE (dateVal r₁) (dateVal r₂) = true))

lemma dateLE_total (a b : Value) : dateLE a b = true ∨ dateLE b a = true := by
  cases a <;> cases b <;> simp [dateLE] <;> exact le_total _ _

lemma dateLE_trans {a b c : Value} (h₁ : dateLE a b = true) (h₂ : dateLE b c = true) :
    dateLE a c = true := by
  cases a <;> cases b <;> cases c <;> simp [dateLE] at * <;> exact le_trans h₁ h₂

lemma dateLE_refl (a : Value) : dateLE a a = true := by
  cases a <;> simp [dateLE]

instance : IsTotal (List Value) rowLE :=
  ⟨fun r₁ r₂ => dateLE_total (dateVal r₁) (dateVal r₂)⟩

instance : IsTrans (List Value) rowLE :=
  ⟨fun _ _ _ h₁ h₂ => dateLE_trans h₁ h₂⟩

/-- The renamed, filled, date-coerced, column-selected frame: everything
`finmind_to_snake` does before the sort and the provenance stamps. -/
def normalizeCore (parseDate : Value → Option String) (df : DataFrame) : DataFrame :=
  let renamed : DataFrame := ⟨df.cols.map renameCol, df.rows⟩
  let filled := addMissing SNAKE_EXPECTED renamed
  let coerced := coerceDateCol parseDate filled
  let remain := coerced.cols.filter (fun c => c ∉ SNAKE_EXPECTED)
  selectCols coerced (SNAKE_EXPECTED ++ remain)

/-- `out["_fetched_at"] = now; out["_source"] = "FinMind"`. -/
def addProvenance (now : String) (d : DataFrame) : DataFrame :=
  ⟨d.cols ++ ["_fetched_at", "_source"],
   d.rows.map (fun r => r ++ [.str now, .str "FinMind"])⟩

/-- `finmind_to_snake(df)` with the capture timestamp and the external
date parser as parameters. -/
def finmind_to_snake (parseDate : Value → Option String) (now : String)
    (df : DataFrame) : DataFrame :=
  if df.rows.isEmpty || df.cols.isEmpty then df
  else
    let core := normalizeCore parseDate df
    addProvenance now ⟨core.cols, List.insertionSort rowLE core.rows⟩

lemma addMissing_spec (cs : List String) (hnd : cs.Nodup) :
    ∀ d : DataFrame,
      (addMissing cs d).cols = d.cols ++ cs.filter (fun c => c ∉ d.cols) ∧
      (addMissing cs d).rows = d.rows.map
        (fun r => r ++ List.replicate (cs.filter (fun c => c ∉ d.cols)).length Value.na) := by
  induction cs with
  | nil =>
    intro d
    refine ⟨by simp [addMissing], ?_⟩
    simp [addMissing]
  | cons c cs ih =>
    intro d
    have hnd' : cs.Nodup := hnd.of_cons
    have hcnotin : c ∉ cs := (List.nodup_cons.mp hnd).1
    rw [addMissing, List.foldl_cons, List.filter_cons]
    by_cases hc : c ∈ d.cols
    · rw [if_pos hc, if_neg (by simpa using hc)]
      exact ih hnd' d
    · rw [if_neg hc, if_pos (by simpa using hc)]
      set d' : DataFrame := ⟨d.cols ++ [c], d.rows.map (fun r => r ++ [Value.na])⟩ with hd'
      have hfeq : cs.filter (fun x => x ∉ d'.cols) = cs.filter (fun x => x ∉ d.cols) := by
        refine List.filter_congr ?_
        intro x hx
        have hxc : x ≠ c := fun h => hcnotin (h ▸ hx)
        simp [hd', hxc]
      obtain ⟨hcols, hrows⟩ := ih hnd' d'
      constructor
      · rw [addMissing] at hcols
        rw [hcols, hfeq, hd']
        simp
      · rw [addMissing] at hrows
        rw [hrows, hfeq, hd']
        simp only [List.map_map]
        refine List.map_congr_left ?_
        intro r _
        simp [Function.comp, List.replicate_succ, List.append_assoc]

lemma snake_nodup : SNAKE_EXPECTED.Nodup := by decide

/-- Column list of the filled frame. -/
lemma filled_cols (renamed : DataFrame) :
    (addMissing SNAKE_EXPECTED renamed).cols =
      renamed.cols ++ SNAKE_EXPECTED.filter (fun c => c ∉ renamed.cols) :=
  (addMissing_spec SNAKE_EXPECTED snake_nodup renamed).1

lemma filled_rows (renamed : DataFrame) :
    (addMissing SNAKE_EXPECTED renamed).rows = renamed.rows.map
      (fun r => r ++ List.replicate
        ((SNAKE_EXPECTED.filter (fun c => c ∉ renamed.cols)).length) Value.na) :=
  (addMissing_spec SNAKE_EXPECTED snake_nodup renamed).2

lemma filled_cols_nodup (renamed : DataFrame) (hnd : renamed.cols.Nodup) :
    (addMissing SNAKE_EXPECTED renamed).cols.Nodup := by
  rw [filled_cols]
  refine List.Nodup.append hnd (snake_nodup.filter _) ?_
  intro x hx hx'
  have := List.of_mem_filter hx'
  simp only [decide_eq_true_eq] at this
  exact this hx

/-- Every canonical column is a column of the filled frame. -/
lemma filled_cols_canonical (renamed : DataFrame) (c : String)
    (hc : c ∈ SNAKE_EXPECTED) : c ∈ (addMissing SNAKE_EXPECTED renamed).cols := by
  rw [filled_cols]
  by_cases h : c ∈ renamed.cols
  · exact List.mem_append_left _ h
  · exact List.mem_append_right _ (List.mem_filter.mpr ⟨hc, by simpa using h⟩)


lemma remain_eq (renamed : DataFrame) :
    (addMissing SNAKE_EXPECTED renamed).cols.filter (fun c => c ∉ SNAKE_EXPECTED)
      = renamed.cols.filter (fun c => c ∉ SNAKE_EXPECTED) := by
  rw [filled_cols, List.filter_append]
  have hnil : (SNAKE_EXPECTED.filter (fun c => c ∉ renamed.cols)).filter
      (fun c => c ∉ SNAKE_EXPECTED) = [] := by
    refine List.filter_eq_nil_iff.mpr ?_
    intro a ha
    have := List.of_mem_filter ha
    have hmem := List.mem_of_mem_filter ha
    simp [hmem]
  rw [hnil, List.append_nil]

lemma selectCols_row_value (ds : List String) (cs : List String) (c : String)
    (hc : c ∈ cs) (r : List Value) :
    (cs.map (fun c' => r.getD (ds.indexOf c') Value.na)).getD
      (cs.indexOf c) Value.na = r.getD (ds.indexOf c) Value.na := by
  have hlt : cs.indexOf c < cs.length := List.indexOf_lt_length.mpr hc
  rw [List.getD_eq_getElem _ _ (by simpa using hlt), List.getElem_map _]
  rw [List.getElem_indexOf hlt]

lemma set_getD_self (r : List Value) (i : Nat) (v : Value) (hi : i < r.length) :
    (r.set i v).getD i Value.na = v := by
  rw [List.getD_eq_getElem _ _ (by simpa using hi)]
  exact List.getElem_set_self _

lemma set_getD_ne (r : List Value) (i j : Nat) (v : Value) (hij : i ≠ j) :
    (r.set i v).getD j Value.na = r.getD j Value.na := by
  by_cases hj : j < r.length
  · rw [List.getD_eq_getElem _ _ (by simpa using hj),
      List.getD_eq_getElem _ _ hj]
    exact List.getElem_set_ne hij _
  · rw [List.getD_eq_default _ _ (by simpa using Nat.le_of_not_lt hj),
      List.getD_eq_default _ _ (Nat.le_of_not_lt hj)]

/-! Stability of the stable sort: every date-equivalence class of rows is
emitted in its original order. -/

lemma filter_dateclass_orderedInsert_eq (v : Value) (x : List Value)
    (l : List (List Value)) (hx : dateVal x = v) :
    (List.orderedInsert rowLE x l).filter (fun r => dateVal r = v) =
      x :: l.filter (fun r => dateVal r = v) := by
  induction l with
  | nil => simp [List.orderedInsert, hx]
  | cons y l ih =>
    rw [List.orderedInsert]
    by_cases hxy : rowLE x y
    · rw [if_pos hxy, List.filter_cons, if_pos (by simpa using hx)]
    · rw [if_neg hxy]
      have hyv : ¬(dateVal y = v) := by
        intro hyv
        exact hxy (show rowLE x y by rw [rowLE, hx, hyv]; exact dateLE_refl v)
      rw [List.filter_cons, if_neg (by simpa using hyv), ih,
        List.filter_cons, if_neg (by simpa using hyv)]

lemma filter_dateclass_orderedInsert_ne (v : Value) (x : List Value)
    (l : List (List Value)) (hx : ¬(dateVal x = v)) :
    (List.orderedInsert rowLE x l).filter (fun r => dateVal r = v) =
      l.filter (fun r => dateVal r = v) := by
  induction l with
  | nil => simp [List.orderedInsert, hx]
  | cons y l ih =>
    rw [List.orderedInsert]
    by_cases hxy : rowLE x y
    · rw [if_pos hxy, List.filter_cons, if_neg (by simpa using hx)]
    · rw [if_neg hxy, List.filter_cons, ih, List.filter_cons]

lemma filter_dateclass_insertionSort (v : Value) (l : List (List Value)) :
    (List.insertionSort rowLE l).filter (fun r => dateVal r = v) =
      l.filter (fun r => dateVal r = v) := by
  induction l with
  | nil => rfl
  | cons x l ih =>
    rw [List.insertionSort]
    by_cases hx : dateVal x = v
    · rw [filter_dateclass_orderedInsert_eq v x _ hx, ih,
        List.filter_cons, if_pos (by simpa using hx)]
    · rw [filter_dateclass_orderedInsert_ne v x _ hx, ih,
        List.filter_cons, if_neg (by simpa using hx)]

/-! Named stage functions for the normalizer pipeline, and the
characterization of `normalizeCore` as one map over the input rows. -/

def renamedColsOf (df : DataFrame) : List String := df.cols.map renameCol

def remainOf (df : DataFrame) : List String :=
  (renamedColsOf df).filter (fun c => c ∉ SNAKE_EXPECTED)

def coreWidth (df : DataFrame) : Nat := (SNAKE_EXPECTED ++ remainOf df).length

def filledColsOf (df : DataFrame) : List String :=
  renamedColsOf df ++ SNAKE_EXPECTED.filter (fun c => c ∉ renamedColsOf df)

def fillFun (df : DataFrame) (r : List Value) : List Value :=
  r ++ List.replicate
    ((SNAKE_EXPECTED.filter (fun c => c ∉ renamedColsOf df)).length) Value.na

def setDateFun (pd : Value → Option String) (df : DataFrame) (r : List Value) : List Value :=
  r.set ((filledColsOf df).indexOf "date")
    (coerceDate pd (r.getD ((filledColsOf df).indexOf "date") Value.na))

def selFun (df : DataFrame) (r : List Value) : List Value :=
  (SNAKE_EXPECTED ++ remainOf df).map
    (fun c => r.getD ((filledColsOf df).indexOf c) Value.na)

def coreRowFun (pd : Value → Option String) (df : DataFrame) (r : List Value) : List Value :=
  selFun df (setDateFun pd df (fillFun df r))

/-- The date value a raw record carries into the pipeline (NA when the
input has no date column). -/
def rawDateVal (df : DataFrame) (r : List Value) : Value :=
  if "date" ∈ renamedColsOf df then
    r.getD ((renamedColsOf df).indexOf "date") Value.na
  else Value.na

lemma normalizeCore_def (pd : Value → Option String) (df : DataFrame) :
    normalizeCore pd df =
      selectCols (coerceDateCol pd (addMissing SNAKE_EXPECTED ⟨df.cols.map renameCol, df.rows⟩))
        (SNAKE_EXPECTED ++
          (coerceDateCol pd (addMissing SNAKE_EXPECTED
            ⟨df.cols.map renameCol, df.rows⟩)).cols.filter
            (fun c => c ∉ SNAKE_EXPECTED)) := rfl

lemma coerceDateCol_cols (pd : Value → Option String) (d : DataFrame) :
    (coerceDateCol pd d).cols = d.cols := rfl

lemma filledColsOf_eq (df : DataFrame) :
    (addMissing SNAKE_EXPECTED ⟨df.cols.map renameCol, df.rows⟩).cols = filledColsOf df :=
  filled_cols _

lemma remainOf_eq_filter (df : DataFrame) :
    (filledColsOf df).filter (fun c => c ∉ SNAKE_EXPECTED) = remainOf df := by
  rw [filledColsOf, List.filter_append]
  have hnil : (SNAKE_EXPECTED.filter (fun c => c ∉ renamedColsOf df)).filter
      (fun c => c ∉ SNAKE_EXPECTED) = [] := by
    refine List.filter_eq_nil_iff.mpr ?_
    intro a ha
    have hmem := List.mem_of_mem_filter ha
    simp [hmem]
  rw [hnil, List.append_nil, remainOf]

lemma core_cols (pd : Value → Option String) (df : DataFrame) :
    (normalizeCore pd df).cols = SNAKE_EXPECTED ++ remainOf df := by
  rw [normalizeCore_def]
  simp only [selectCols, coerceDateCol_cols, filledColsOf_eq, remainOf_eq_filter]

lemma core_rows (pd : Value → Option String) (df : DataFrame) :
    (normalizeCore pd df).rows = df.rows.map (coreRowFun pd df) := by
  have hFrows := filled_rows ⟨df.cols.map renameCol, df.rows⟩
  rw [normalizeCore_def]
  simp only [selectCols, coerceDateCol, filledColsOf_eq, remainOf_eq_filter, hFrows,
    List.map_map]
  refine List.map_congr_left ?_
  intro r _
  simp only [coreRowFun, selFun, setDateFun, fillFun, Function.comp]
  rfl

lemma date_mem_snake : "date" ∈ SNAKE_EXPECTED := by
  simp [SNAKE_EXPECTED]

lemma mem_filledCols_of_snake (df : DataFrame) (c : String)
    (hc : c ∈ SNAKE_EXPECTED) : c ∈ filledColsOf df := by
  rw [filledColsOf]
  by_cases h : c ∈ renamedColsOf df
  · exact List.mem_append_left _ h
  · exact List.mem_append_right _ (List.mem_filter.mpr ⟨hc, by simpa using h⟩)

lemma mem_filledCols_of_renamed (df : DataFrame) (c : String)
    (hc : c ∈ renamedColsOf df) : c ∈ filledColsOf df :=
  List.mem_append_left _ hc

lemma fillFun_length (df : DataFrame) (r : List Value)
    (hr : r.length = (renamedColsOf df).length) :
    (fillFun df r).length = (filledColsOf df).length := by
  simp [fillFun, filledColsOf, hr]

/-- A canonical column absent from the renamed input is NA in the filled
row. -/
lemma fill_value_absent (df : DataFrame) (c : String)
    (hc : c ∈ SNAKE_EXPECTED) (habs : c ∉ renamedColsOf df)
    (r : List Value) (hr : r.length = (renamedColsOf df).length) :
    (fillFun df r).getD ((filledColsOf df).indexOf c) Value.na = Value.na := by
  rw [fillFun, filledColsOf]
  set missing := SNAKE_EXPECTED.filter (fun x => x ∉ renamedColsOf df) with hm
  have hcm : c ∈ missing := List.mem_filter.mpr ⟨hc, by simpa using habs⟩
  rw [List.indexOf_append_of_not_mem habs]
  have hlt : missing.indexOf c < missing.length := List.indexOf_lt_length.mpr hcm
  rw [List.getD_append_right _ _ _ _ (by omega),
    List.getD_eq_getElem _ _ (by simpa using by omega)]
  have heq : (renamedColsOf df).length + missing.indexOf c - r.length = missing.indexOf c := by
    omega
  simp only [heq]
  exact List.getElem_replicate _ _

/-- A column of the renamed input keeps its position and value in the
filled row. -/
lemma fill_value_present (df : DataFrame) (c : String)
    (hpres : c ∈ renamedColsOf df)
    (r : List Value) (hr : r.length = (renamedColsOf df).length) :
    (fillFun df r).getD ((filledColsOf df).indexOf c) Value.na =
      r.getD ((renamedColsOf df).indexOf c) Value.na := by
  rw [fillFun, filledColsOf, List.indexOf_append_of_mem hpres]
  have hlt : (renamedColsOf df).indexOf c < (renamedColsOf df).length :=
    List.indexOf_lt_length.mpr hpres
  rw [List.getD_append _ _ _ _ (by omega)]

lemma indexOf_ne_of_ne {l : List String} {a b : String}
    (ha : a ∈ l) (hb : b ∈ l) (hne : a ≠ b) : l.indexOf a ≠ l.indexOf b :=
  fun h => hne ((List.indexOf_inj ha hb).mp h)

lemma coreRowFun_length (pd : Value → Option String) (df : DataFrame)
    (r : List Value) : (coreRowFun pd df r).length = coreWidth df := by
  simp [coreRowFun, selFun, coreWidth]

lemma coreWidth_pos (df : DataFrame) : 0 < coreWidth df := by
  rw [coreWidth, List.length_append]
  have h16 : SNAKE_EXPECTED.length = 16 := rfl
  omega

/-- Value of the normalized row at a canonical column absent from the
input: NA. -/
lemma coreRowFun_absent (pd : Value → Option String) (df : DataFrame)
    (hna : pd Value.na = none)
    (c : String) (hc : c ∈ SNAKE_EXPECTED) (habs : c ∉ renamedColsOf df)
    (r : List Value) (hr : r.length = df.cols.length) :
    (coreRowFun pd df r).getD ((SNAKE_EXPECTED ++ remainOf df).indexOf c)
      Value.na = Value.na := by
  have hrlen : r.length = (renamedColsOf df).length := by
    simp [renamedColsOf, hr]
  have hcs : c ∈ SNAKE_EXPECTED ++ remainOf df := List.mem_append_left _ hc
  rw [coreRowFun, selFun, selectCols_row_value (filledColsOf df) _ c hcs, setDateFun]
  by_cases hcd : c = "date"
  · subst hcd
    have hidx : (filledColsOf df).indexOf "date" < (fillFun df r).length := by
      rw [fillFun_length df r hrlen]
      exact List.indexOf_lt_length.mpr (mem_filledCols_of_snake df _ date_mem_snake)
    rw [set_getD_self _ _ _ hidx,
      fill_value_absent df _ date_mem_snake habs r hrlen]
    simp [coerceDate, hna]
  · have hne : (filledColsOf df).indexOf "date" ≠ (filledColsOf df).indexOf c :=
      indexOf_ne_of_ne (mem_filledCols_of_snake df _ date_mem_snake)
        (mem_filledCols_of_snake df c hc) (fun h => hcd h.symm)
    rw [set_getD_ne _ _ _ _ hne]
    exact fill_value_absent df c hc habs r hrlen

/-- Value of the normalized row at a passthrough column: the input value. -/
lemma coreRowFun_passthrough (pd : Value → Option String) (df : DataFrame)
    (c : String) (hc : c ∈ remainOf df)
    (r : List Value) (hr : r.length = df.cols.length) :
    (coreRowFun pd df r).getD ((SNAKE_EXPECTED ++ remainOf df).indexOf c)
      Value.na = r.getD ((renamedColsOf df).indexOf c) Value.na := by
  have hrlen : r.length = (renamedColsOf df).length := by
    simp [renamedColsOf, hr]
  have hcren : c ∈ renamedColsOf df := List.mem_of_mem_filter hc
  have hcnots : c ∉ SNAKE_EXPECTED := by
    have := List.of_mem_filter hc
    simpa using this
  have hcs : c ∈ SNAKE_EXPECTED ++ remainOf df := List.mem_append_right _ hc
  rw [coreRowFun, selFun, selectCols_row_value (filledColsOf df) _ c hcs, setDateFun]
  have hcd : c ≠ "date" := fun h => hcnots (h ▸ date_mem_snake)
  have hne : (filledColsOf df).indexOf "date" ≠ (filledColsOf df).indexOf c :=
    indexOf_ne_of_ne (mem_filledCols_of_snake df _ date_mem_snake)
      (mem_filledCols_of_renamed df c hcren) (fun h => hcd h.symm)
  rw [set_getD_ne _ _ _ _ hne]
  exact fill_value_present df c hcren r hrlen

/-- The date value of the normalized row is the coerced raw date. -/
lemma coreRowFun_date (pd : Value → Option String) (df : DataFrame)
    (r : List Value) (hr : r.length = df.cols.length) :
    dateVal (coreRowFun pd df r) = coerceDate pd (rawDateVal df r) := by
  have hrlen : r.length = (renamedColsOf df).length := by
    simp [renamedColsOf, hr]
  have hdm : "date" ∈ SNAKE_EXPECTED ++ remainOf df :=
    List.mem_append_left _ date_mem_snake
  have hidx0 : (SNAKE_EXPECTED ++ remainOf df).indexOf "date" = 0 := by
    rw [List.indexOf_append_of_mem date_mem_snake]
    rfl
  rw [dateVal, ← hidx0, coreRowFun, selFun,
    selectCols_row_value (filledColsOf df) _ _ hdm, setDateFun]
  have hidx : (filledColsOf df).indexOf "date" < (fillFun df r).length := by
    rw [fillFun_length df r hrlen]
    exact List.indexOf_lt_length.mpr (mem_filledCols_of_snake df _ date_mem_snake)
  rw [set_getD_self _ _ _ hidx]
  rw [rawDateVal]
  by_cases h : "date" ∈ renamedColsOf df
  · rw [if_pos h, fill_value_present df _ h r hrlen]
  · rw [if_neg h, fill_value_absent df _ date_mem_snake h r hrlen]

lemma dataFrame_rows_mk (c : List String) (l : List (List Value)) :
    (⟨c, l⟩ : DataFrame).rows = l := rfl

lemma dataFrame_cols_mk (c : List String) (l : List (List Value)) :
    (⟨c, l⟩ : DataFrame).cols = c := rfl

lemma addProvenance_rows (now : String) (d : DataFrame) :
    (addProvenance now d).rows =
      d.rows.map (fun r => r ++ [Value.str now, Value.str "FinMind"]) := rfl

lemma addProvenance_cols (now : String) (d : DataFrame) :
    (addProvenance now d).cols = d.cols ++ ["_fetched_at", "_source"] := rfl

lemma finmind_to_snake_eq (parseDate : Value → Option String) (now : String)
    (df : DataFrame) (hrows : df.rows ≠ []) (hcols : df.cols ≠ []) :
    finmind_to_snake parseDate now df =
      addProvenance now ⟨(normalizeCore parseDate df).cols,
        List.insertionSort rowLE (normalizeCore parseDate df).rows⟩ := by
  have hr : df.rows.isEmpty = false := by
    cases hh : df.rows with
    | nil => exact absurd hh hrows
    | cons a t => rfl
  have hc : df.cols.isEmpty = false := by
    cases hh : df.cols with
    | nil => exact absurd hh hcols
    | cons a t => rfl
  rw [finmind_to_snake, hr, hc]
  rfl

lemma finmind_to_snake_rows (parseDate : Value → Option String) (now : String)
    (df : DataFrame) (hrows : df.rows ≠ []) (hcols : df.cols ≠ []) :
    (finmind_to_snake parseDate now df).rows =
      (List.insertionSort rowLE (normalizeCore parseDate df).rows).map
        (fun r => r ++ [Value.str now, Value.str "FinMind"]) := by
  rw [finmind_to_snake_eq parseDate now df hrows hcols, addProvenance_rows,
    dataFrame_rows_mk]

/-- **C8.** For every non-empty raw record set: the normalized output's
column list is the full canonical set, then the unmapped passthrough
columns, then the two provenance columns; every canonical column absent
from the (renamed) raw input is NA in every record; modulo the provenance
suffix the records are a permutation of the normalized records, and the
passthrough columns carry the raw input's values; the records are
stable-sorted by date ascending; and every record ends with the capture
timestamp and the constant source label `"FinMind"`. -/
theorem finmind_to_snake_spec (parseDate : Value → Option String) (now : String)
    (df : DataFrame)
    (hrows : df.rows ≠ []) (hcols : df.cols ≠ [])
    (hwf : ∀ r ∈ df.rows, r.length = df.cols.length)
    (_hnodup : (renamedColsOf df).Nodup)
    (hna : parseDate Value.na = none) :
    (finmind_to_snake parseDate now df).cols =
      SNAKE_EXPECTED ++ remainOf df ++ ["_fetched_at", "_source"] ∧
    (∀ c ∈ SNAKE_EXPECTED, c ∉ renamedColsOf df →
      ∀ r ∈ (finmind_to_snake parseDate now df).rows,
        r.getD ((SNAKE_EXPECTED ++ remainOf df).indexOf c) Value.na = Value.na) ∧
    ((finmind_to_snake parseDate now df).rows.map
        (fun r => r.take (coreWidth df))).Perm (normalizeCore parseDate df).rows ∧
    List.Forall₂ (fun r' r => ∀ c ∈ remainOf df,
        r'.getD ((SNAKE_EXPECTED ++ remainOf df).indexOf c) Value.na =
          r.getD ((renamedColsOf df).indexOf c) Value.na)
      (normalizeCore parseDate df).rows df.rows ∧
    List.Sorted rowLE (finmind_to_snake parseDate now df).rows ∧
    (∀ v : Value,
      ((finmind_to_snake parseDate now df).rows.map
          (fun r => r.take (coreWidth df))).filter (fun r => dateVal r = v) =
        (normalizeCore parseDate df).rows.filter (fun r => dateVal r = v)) ∧
    (∀ r ∈ (finmind_to_snake parseDate now df).rows,
      r.drop (coreWidth df) = [Value.str now, Value.str "FinMind"]) := by
  have hout := finmind_to_snake_eq parseDate now df hrows hcols
  have hcc := core_cols parseDate df
  have hcr := core_rows parseDate df
  have hlen : ∀ r' ∈ (normalizeCore parseDate df).rows, r'.length = coreWidth df := by
    rw [hcr]
    intro r' hr'
    obtain ⟨r, _, rfl⟩ := List.mem_map.mp hr'
    exact coreRowFun_length parseDate df r
  have hlens : ∀ r' ∈ List.insertionSort rowLE (normalizeCore parseDate df).rows,
      r'.length = coreWidth df :=
    fun r' hr' => hlen r' ((List.mem_insertionSort rowLE).mp hr')
  have hrowsout := finmind_to_snake_rows parseDate now df hrows hcols
  have htake : (finmind_to_snake parseDate now df).rows.map
      (fun r => r.take (coreWidth df)) =
      List.insertionSort rowLE (normalizeCore parseDate df).rows := by
    rw [hrowsout, List.map_map]
    have := List.map_id (List.insertionSort rowLE (normalizeCore parseDate df).rows)
    refine Eq.trans (List.map_congr_left ?_) this
    intro r' hr'
    show (r' ++ [Value.str now, Value.str "FinMind"]).take (coreWidth df) = r'
    rw [← hlens r' hr', List.take_left]
  refine ⟨?_, ?_, ?_, ?_, ?_, ?_, ?_⟩
  · rw [hout, addProvenance_cols, dataFrame_cols_mk, hcc]
  · intro c hc habs r hr
    rw [hrowsout] at hr
    obtain ⟨r'', h'', rfl⟩ := List.mem_map.mp hr
    have hidxlt : (SNAKE_EXPECTED ++ remainOf df).indexOf c < r''.length := by
      rw [hlens r'' h'']
      exact List.indexOf_lt_length.mpr (List.mem_append_left _ hc)
    rw [List.getD_append _ _ _ _ hidxlt]
    have h2 := (List.mem_insertionSort rowLE).mp h''
    rw [hcr] at h2
    obtain ⟨r0, hr0, rfl⟩ := List.mem_map.mp h2
    exact coreRowFun_absent parseDate df hna c hc habs r0 (hwf r0 hr0)
  · rw [htake]
    exact List.perm_insertionSort rowLE _
  · rw [hcr]
    refine List.forall₂_map_left_iff.mpr (List.forall₂_same.mpr ?_)
    intro r hrm c hc
    exact coreRowFun_passthrough parseDate df c hc r (hwf r hrm)
  · have hsorted := List.sorted_insertionSort rowLE (normalizeCore parseDate df).rows
    rw [hrowsout]
    refine List.pairwise_map.mpr ?_
    refine List.Pairwise.imp_of_mem ?_ hsorted
    intro a b ha hb hab
    show rowLE (a ++ _) (b ++ _)
    have hda : dateVal (a ++ [Value.str now, Value.str "FinMind"]) = dateVal a := by
      rw [dateVal, dateVal, List.getD_append]
      rw [hlens a ha]
      exact coreWidth_pos df
    have hdb : dateVal (b ++ [Value.str now, Value.str "FinMind"]) = dateVal b := by
      rw [dateVal, dateVal, List.getD_append]
      rw [hlens b hb]
      exact coreWidth_pos df
    rw [rowLE, hda, hdb]
    exact hab
  · intro v
    rw [htake]
    exact filter_dateclass_insertionSort v _
  · intro r hr
    rw [hrowsout] at hr
    obtain ⟨r'', h'', rfl⟩ := List.mem_map.mp hr
    rw [← hlens r'' h'', List.drop_left]

/-- A parser oracle that parses string cells and nothing else (a stand-in
for `pd.to_datetime` on well-formed inputs). -/
def witnessParse : Value → Option String := fun v =>
  match v with
  | Value.str s => some s
  | _ => none

/-- A concrete raw frame: a date column and one unmapped passthrough
column `"Foo"`. -/
def witnessDF : DataFrame := ⟨["date", "Foo"], [[Value.str "2024-01-02", Value.int 5]]⟩

/-- Witness for C8: the normalizer specification at a concrete one-record
frame with a passthrough column. -/
theorem finmind_to_snake_spec_witness :
    (finmind_to_snake witnessParse "2024-06-10 12:00:00" witnessDF).cols =
      SNAKE_EXPECTED ++ remainOf witnessDF ++ ["_fetched_at", "_source"] ∧
    (∀ c ∈ SNAKE_EXPECTED, c ∉ renamedColsOf witnessDF →
      ∀ r ∈ (finmind_to_snake witnessParse "2024-06-10 12:00:00" witnessDF).rows,
        r.getD ((SNAKE_EXPECTED ++ remainOf witnessDF).indexOf c) Value.na = Value.na) ∧
    ((finmind_to_snake witnessParse "2024-06-10 12:00:00" witnessDF).rows.map
        (fun r => r.take (coreWidth witnessDF))).Perm
      (normalizeCore witnessParse witnessDF).rows ∧
    List.Forall₂ (fun r' r => ∀ c ∈ remainOf witnessDF,
        r'.getD ((SNAKE_EXPECTED ++ remainOf witnessDF).indexOf c) Value.na =
          r.getD ((renamedColsOf witnessDF).indexOf c) Value.na)
      (normalizeCore witnessParse witnessDF).rows witnessDF.rows ∧
    List.Sorted rowLE (finmind_to_snake witnessParse "2024-06-10 12:00:00" witnessDF).rows ∧
    (∀ v : Value,
      ((finmind_to_snake witnessParse "2024-06-10 12:00:00" witnessDF).rows.map
          (fun r => r.take (coreWidth witnessDF))).filter (fun r => dateVal r = v) =
        (normalizeCore witnessParse witnessDF).rows.filter (fun r => dateVal r = v)) ∧
    (∀ r ∈ (finmind_to_snake witnessParse "2024-06-10 12:00:00" witnessDF).rows,
      r.drop (coreWidth witnessDF) =
        [Value.str "2024-06-10 12:00:00", Value.str "FinMind"]) :=
  finmind_to_snake_spec witnessParse "2024-06-10 12:00:00" witnessDF
    (by decide) (by decide) (by decide) (by decide) rfl

/-- A parser oracle on which every date cell fails to parse. -/
def noParse : Value → Option String := fun _ => none

/-- A concrete raw frame with one record whose date cell is unparsable. -/
def badDF : DataFrame := ⟨["date", "stock_id"], [[Value.str "not-a-date", Value.str "2330"]]⟩

/-- **C3 counterexample.** A record set with one record whose date cannot
be parsed: normalization raises no failure (it totally returns a frame),
does not drop the record (one record out), and emits it with a null (NA)
date — refuting the claim that a normalization failure is surfaced and
that a record is never silently emitted with a null date. -/
theorem normalize_unparsable_silent_counterexample :
    (finmind_to_snake noParse "2024-06-10 12:00:00" badDF).rows.length = 1 ∧
    ∀ r ∈ (finmind_to_snake noParse "2024-06-10 12:00:00" badDF).rows,
      dateVal r = Value.na := by
  decide

/-- **C3 (amended).** Normalization never surfaces a failure for an
unparsable date and never drops the record: the record count is preserved,
and each record's emitted date value is the coerced raw date — NA exactly
when the parse failed (`errors="coerce"` in base.py line 75). -/
theorem normalize_unparsable_date_emits_null (parseDate : Value → Option String)
    (now : String) (df : DataFrame)
    (hrows : df.rows ≠ []) (hcols : df.cols ≠ [])
    (hwf : ∀ r ∈ df.rows, r.length = df.cols.length) :
    (finmind_to_snake parseDate now df).rows.length = df.rows.length ∧
    ((finmind_to_snake parseDate now df).rows.map dateVal).Perm
      (df.rows.map (fun r => coerceDate parseDate (rawDateVal df r))) := by
  have hrowsout := finmind_to_snake_rows parseDate now df hrows hcols
  have hcr := core_rows parseDate df
  constructor
  · rw [hrowsout, List.length_map, List.length_insertionSort, hcr, List.length_map]
  · have hlens : ∀ r' ∈ List.insertionSort rowLE (normalizeCore parseDate df).rows,
        r'.length = coreWidth df := by
      intro r' hr'
      have h2 := (List.mem_insertionSort rowLE).mp hr'
      rw [hcr] at h2
      obtain ⟨r, _, rfl⟩ := List.mem_map.mp h2
      exact coreRowFun_length parseDate df r
    have h1 : (finmind_to_snake parseDate now df).rows.map dateVal =
        (List.insertionSort rowLE (normalizeCore parseDate df).rows).map dateVal := by
      rw [hrowsout, List.map_map]
      refine List.map_congr_left ?_
      intro r' hr'
      show dateVal (r' ++ _) = dateVal r'
      rw [dateVal, dateVal, List.getD_append]
      rw [hlens r' hr']
      exact coreWidth_pos df
    have heq : (normalizeCore parseDate df).rows.map dateVal =
        df.rows.map (fun r => coerceDate parseDate (rawDateVal df r)) := by
      rw [hcr, List.map_map]
      refine List.map_congr_left ?_
      intro r hrm
      exact coreRowFun_date parseDate df r (hwf r hrm)
    rw [h1, ← heq]
    exact List.Perm.map dateVal (List.perm_insertionSort rowLE _)

/-- Witness for C3 (amended): the concrete unparsable-date frame. -/
theorem normalize_unparsable_date_emits_null_witness :
    (finmind_to_snake noParse "2024-06-10 12:00:00" badDF).rows.length =
      badDF.rows.length ∧
    ((finmind_to_snake noParse "2024-06-10 12:00:00" badDF).rows.map dateVal).Perm
      (badDF.rows.map (fun r => coerceDate noParse (rawDateVal badDF r))) :=
  normalize_unparsable_date_emits_null noParse "2024-06-10 12:00:00" badDF
    (by decide) (by decide) (by decide)

end TwStock
